import Mathlib

/-!
Verification of the incremental-synchronization core of the congressgov
data-ingestion scripts (bill_fetch_core.py, member_fetch_core.py,
bill_detail_processor.py, bill_validation.py, utils/api.py,
utils/member_utils.py).

The Python sources are shallowly embedded: dictionaries become structures
with `Option` fields (a missing key is `none`), Python strings become Lean
`String`/`List Char`, `datetime` values become civil timestamps in
microseconds with an optional UTC offset, database tables become lists of
row structures, and per-record exception handling becomes explicit outcome
values.  All definitions are executable.
-/

namespace Congress

/-! ## Python string primitives, modelled on `List Char`

Python string operations used by the sources (`split(sep, 1)`,
`split(' ', 1)`, `strip()`, `lower()`, `replace(old, new)`, `in`,
lexicographic `<`) are modelled as recursive functions on `List Char` so
that every theorem can be settled by kernel evaluation. -/

/-- Python `sub in s` for a character list: `sub` occurs as a contiguous
subsequence of `s` (the empty `sub` occurs in every string). -/
def listContainsSub (sub : List Char) : List Char → Bool
  | [] => sub.isEmpty
  | c :: rest => sub.isPrefixOf (c :: rest) || listContainsSub sub rest

/-- Python `s.split(sep, 1)` for a non-empty separator: split at the
leftmost occurrence of `sep`, returning the part before and the part
after; `none` when `sep` does not occur. -/
def splitFirst (sep : List Char) : List Char → Option (List Char × List Char)
  | [] => none
  | c :: rest =>
    if sep.isPrefixOf (c :: rest) then
      some ([], (c :: rest).drop sep.length)
    else
      match splitFirst sep rest with
      | some (pre, post) => some (c :: pre, post)
      | none => none

/-- Python `s.strip()`: drop whitespace from both ends. -/
def pyStrip (cs : List Char) : List Char :=
  ((cs.dropWhile Char.isWhitespace).reverse.dropWhile Char.isWhitespace).reverse

/-- Python `s.lower()` (ASCII case folding, which covers every string the
sources feed to it). -/
def pyLower (cs : List Char) : List Char :=
  cs.map Char.toLower

/-- Worker for `pyReplace`, structurally recursive on a fuel argument so
that it evaluates inside the kernel; the fuel is the input length, which
always suffices because each step consumes at least one character. -/
def pyReplaceAux (o : Char) (oldTail new : List Char) : Nat → List Char → List Char
  | _, [] => []
  | 0, cs => cs
  | fuel + 1, c :: rest =>
    if (o :: oldTail).isPrefixOf (c :: rest) then
      new ++ pyReplaceAux o oldTail new fuel ((c :: rest).drop (o :: oldTail).length)
    else
      c :: pyReplaceAux o oldTail new fuel rest

/-- Python `s.replace(old, new)` for a non-empty `old` (given as head
`o` and tail `oldTail`): replace every occurrence, scanning left to
right. -/
def pyReplace (o : Char) (oldTail new : List Char) (cs : List Char) : List Char :=
  pyReplaceAux o oldTail new cs.length cs

/-- Python lexicographic `<` on strings (by code point). -/
def pyStrLt : List Char → List Char → Bool
  | [], [] => false
  | [], _ :: _ => true
  | _ :: _, [] => false
  | a :: as_, b :: bs => if a.val < b.val then true else if b.val < a.val then false else pyStrLt as_ bs

/-- Python `s1 <= s2` on strings. -/
def pyStrLe (a b : List Char) : Bool :=
  pyStrLt a b || a == b

/-- Stable insertion sort: `le x y` means `x` may be placed before `y`.
With `le x y = (key x ≥ key y)` this reproduces Python's stable
`sort(key=…, reverse=True)`: descending keys, ties keeping original
order. -/
def insertStable (le : α → α → Bool) (x : α) : List α → List α
  | [] => [x]
  | y :: ys => if le x y then x :: y :: ys else y :: insertStable le x ys

/-- Stable sort built from `insertStable`. -/
def sortStable (le : α → α → Bool) : List α → List α
  | [] => []
  | x :: xs => insertStable le x (sortStable le xs)

/-! ## Python datetime values

`datetime.fromisoformat` results are modelled as a civil (wall-clock)
reading in microseconds since 1970-01-01 on the proleptic Gregorian
calendar, together with an optional UTC offset in microseconds (`none`
models an offset-naive datetime).  Python compares two naive datetimes by
their civil reading, two aware datetimes by instant (civil minus offset),
and raises `TypeError` on a naive/aware mix. -/

structure PyDateTime where
  civil : Int
  offset : Option Int
  deriving DecidableEq, Repr

/-- Python `dt.replace(tzinfo=None)`. -/
def PyDateTime.stripTz (t : PyDateTime) : PyDateTime := ⟨t.civil, none⟩

/-- Python `a >= b` on datetimes: `none` models the `TypeError` raised on
comparing an offset-naive with an offset-aware value. -/
def pyDtGe (a b : PyDateTime) : Option Bool :=
  match a.offset, b.offset with
  | none, none => some (b.civil ≤ a.civil)
  | some oa, some ob => some (b.civil - ob ≤ a.civil - oa)
  | _, _ => none

/-- Gregorian leap year. -/
def isLeap (y : Nat) : Bool :=
  y % 4 = 0 && (y % 100 ≠ 0 || y % 400 = 0)

/-- Days in a month of a given year. -/
def daysInMonth (y m : Nat) : Nat :=
  if m = 2 then (if isLeap y then 29 else 28)
  else if m = 4 || m = 6 || m = 9 || m = 11 then 30
  else 31

/-- Days from 1970-01-01 to the given civil date (proleptic Gregorian;
the standard era-based computation). -/
def daysFromCivil (y m d : Nat) : Int :=
  let yAdj : Int := if m ≤ 2 then (y : Int) - 1 else (y : Int)
  let era : Int := (if 0 ≤ yAdj then yAdj else yAdj - 399) / 400
  let yoe : Int := yAdj - era * 400
  let mp : Int := ((m : Int) + 9) % 12
  let doy : Int := (153 * mp + 2) / 5 + (d : Int) - 1
  let doe : Int := yoe * 365 + yoe / 4 - yoe / 100 + doy
  era * 146097 + doe - 719468

/-- Civil microseconds of a date-time reading. -/
def civilMicros (y mo d h mi s us : Nat) : Int :=
  (daysFromCivil y mo d * 86400 + (h * 3600 + mi * 60 + s : Nat)) * 1000000 + (us : Nat)

/-- Read exactly `n` decimal digits, returning their value and the rest. -/
def readDigits : Nat → List Char → Option (Nat × List Char)
  | 0, cs => some (0, cs)
  | _ + 1, [] => none
  | n + 1, c :: cs =>
    if c.isDigit then
      match readDigits n cs with
      | some (v, rest) => some ((c.toNat - 48) * 10 ^ n + v, rest)
      | none => none
    else none

/-- Expect a single character. -/
def expectChar (c : Char) : List Char → Option (List Char)
  | [] => none
  | x :: xs => if x = c then some xs else none

/-- Time-of-day and offset part of the `fromisoformat` grammar:
`HH[:MM[:SS[.fff[fff]]]][±HH:MM]`. -/
def parseTimeAndOffset (cs : List Char) : Option (Nat × Nat × Nat × Nat × Option Int) := do
  let (h, r) ← readDigits 2 cs
  if 23 < h then none else
  let (mi, s, us, r) ←
    match r with
    | ':' :: r1 => do
      let (mi, r2) ← readDigits 2 r1
      if 59 < mi then none else
      match r2 with
      | ':' :: r3 => do
        let (s, r4) ← readDigits 2 r3
        if 59 < s then none else
        match r4 with
        | '.' :: r5 => do
          match readDigits 6 r5 with
          | some (us, r6) => some (mi, s, us, r6)
          | none => do
            let (ms, r6) ← readDigits 3 r5
            some (mi, s, ms * 1000, r6)
        | _ => some (mi, s, 0, r4)
      | _ => some (mi, 0, 0, r2)
    | _ => some (0, 0, 0, r)
  match r with
  | [] => some (h, mi, s, us, none)
  | sign :: r1 => do
    if sign ≠ '+' ∧ sign ≠ '-' then none else
    let (oh, r2) ← readDigits 2 r1
    if 23 < oh then none else
    let r3 ← expectChar ':' r2
    let (om, r4) ← readDigits 2 r3
    if 59 < om then none else
    if r4 ≠ [] then none else
    let mag : Int := ((oh * 3600 + om * 60 : Nat) : Int) * 1000000
    some (h, mi, s, us, some (if sign = '-' then -mag else mag))

/-- Embedding of `datetime.fromisoformat` on the numeric ISO-8601 grammar
`YYYY-MM-DD[*HH[:MM[:SS[.fff[fff]]]]][±HH:MM]` (`*` any single separator
character), the grammar accepted by the Python versions these scripts
target; `none` models `ValueError`. -/
def fromisoformat (cs : List Char) : Option PyDateTime := do
  let (y, r1) ← readDigits 4 cs
  let r2 ← expectChar '-' r1
  let (mo, r3) ← readDigits 2 r2
  let r4 ← expectChar '-' r3
  let (d, r5) ← readDigits 2 r4
  if mo < 1 ∨ 12 < mo then none else
  if d < 1 ∨ daysInMonth y mo < d then none else
  match r5 with
  | [] => some ⟨civilMicros y mo d 0 0 0 0, none⟩
  | _ :: r6 => do
    let (h, mi, s, us, off) ← parseTimeAndOffset r6
    some ⟨civilMicros y mo d h mi s us, off⟩

/-- The upstream update-timestamp pipeline used by both `update_database`
variants: `datetime.fromisoformat(s.replace('Z', '+00:00'))`. -/
def parseUpdateDate (s : String) : Option PyDateTime :=
  fromisoformat (pyReplace 'Z' [] "+00:00".toList s.toList)

/-! ## utils/member_utils.py -/

/-- Result shape of `parse_member_name`. -/
structure NameParts where
  last_name : String
  first_name : String
  middle_name : String
  deriving DecidableEq, Repr

/-- Embedding of `parse_member_name` (utils/member_utils.py).  The source
splits on the two-character separator `", "` with `split(', ', 1)`, then
splits the remainder on `' '` with `split(' ', 1)`, stripping each
component. -/
def parse_member_name (name : String) : NameParts :=
  if name = "" then ⟨"", "", ""⟩
  else
    match splitFirst [',', ' '] name.toList with
    | none => ⟨⟨pyStrip name.toList⟩, "", ""⟩
    | some (pre, post) =>
      match splitFirst [' '] post with
      | none => ⟨⟨pyStrip pre⟩, ⟨pyStrip post⟩, ""⟩
      | some (f, m) => ⟨⟨pyStrip pre⟩, ⟨pyStrip f⟩, ⟨pyStrip m⟩⟩

/-- The `party_map` dictionary of `parse_party_name`, in Python's
insertion (= iteration) order. -/
def party_map : List (List Char × (String × String)) :=
  [ ("republican".toList, ("Republican", "R"))
  , ("r".toList, ("Republican", "R"))
  , ("gop".toList, ("Republican", "R"))
  , ("democrat".toList, ("Democrat", "D"))
  , ("democratic".toList, ("Democrat", "D"))
  , ("d".toList, ("Democrat", "D"))
  , ("independent".toList, ("Independent", "I"))
  , ("i".toList, ("Independent", "I"))
  , ("libertarian".toList, ("Libertarian", "L"))
  , ("l".toList, ("Libertarian", "L"))
  , ("green".toList, ("Green", "G"))
  , ("g".toList, ("Green", "G")) ]

/-- Embedding of `parse_party_name` (utils/member_utils.py): exact lookup
of the lower-cased, stripped input in `party_map`, then a first-match
substring scan in insertion order, then the verbatim fallback with the
upper-cased first character as code. -/
def parse_party_name (party : String) : String × String :=
  if party = "" then ("", "")
  else
    let party_lower := pyStrip (pyLower party.toList)
    match party_map.find? (fun kv => kv.1 == party_lower) with
    | some kv => kv.2
    | none =>
      match party_map.find? (fun kv => listContainsSub kv.1 party_lower) with
      | some kv => kv.2
      | none =>
        match party.toList with
        | [] => (party, "")
        | c :: _ => (party, String.mk [c.toUpper])

/-! ## bill_fetch/bill_validation.py -/

/-- Embedding of `is_historical_bill`: a bill is historical iff its
congress number lies in [6, 42]; `int(None)` raises `TypeError`, which
the source catches and turns into `False`. -/
def is_historical_bill : Option Int → Bool
  | none => false
  | some c => 6 ≤ c && c ≤ 42

/-- A row of the `bills` table as seen by the validation queries,
projected to the columns and join aggregates those queries read:
`congress` (as an optional integer — a NULL column makes every
`congress::int` comparison evaluate to SQL NULL), whether `text_versions`
is NULL or the empty JSON array, the `summary` column, the number of tags
linked through `bill_tags` (the policy-area query's LEFT-JOIN/HAVING
combination reports exactly the bills with no linked tag at all), the
`sponsor_id` column, and the number of joined cosponsor, subject and
action rows. -/
structure DbBill where
  bill_number : String
  congress : Option Int
  text_versions_absent : Bool
  summary : Option String
  tag_count : Nat
  sponsor_id : Option String
  cosponsor_count : Nat
  subject_count : Nat
  action_count : Nat
  deriving DecidableEq, Repr

/-- The SQL filter `congress::int > 42 OR congress::int < 6`; a NULL
congress yields SQL NULL, which does not satisfy the WHERE clause. -/
def congressOutsideHistorical (b : DbBill) : Bool :=
  match b.congress with
  | some c => 42 < c || c < 6
  | none => false

/-- Bills missing text versions (`check_missing_details`, first query):
no congress filter. -/
def missing_text_query (bills : List DbBill) : List DbBill :=
  bills.filter (fun b => b.text_versions_absent)

/-- Bills missing summaries (`check_missing_details`, second query):
`summary IS NULL AND (congress::int > 42 OR congress::int < 6)`. -/
def missing_summary_query (bills : List DbBill) : List DbBill :=
  bills.filter (fun b => b.summary.isNone && congressOutsideHistorical b)

/-- Bills missing policy-area tags (`check_missing_details`, third
query): the LEFT-JOIN/WHERE/HAVING combination reports a bill iff it has
no linked tag at all and its congress passes the same range filter. -/
def missing_policy_area_query (bills : List DbBill) : List DbBill :=
  bills.filter (fun b => b.tag_count == 0 && congressOutsideHistorical b)

/-- Bills missing actions (`check_missing_enrichment`, first query): no
congress filter. -/
def missing_actions_query (bills : List DbBill) : List DbBill :=
  bills.filter (fun b => b.action_count == 0)

/-- Bills missing subjects (`check_missing_enrichment`, second query):
zero joined subject rows and the congress range filter. -/
def missing_subjects_query (bills : List DbBill) : List DbBill :=
  bills.filter (fun b => b.subject_count == 0 && congressOutsideHistorical b)

/-- Bills missing cosponsors (`check_missing_enrichment`, third query):
`sponsor_id IS NOT NULL`, zero joined cosponsor rows, and the congress
range filter. -/
def missing_cosponsors_query (bills : List DbBill) : List DbBill :=
  bills.filter (fun b => b.sponsor_id.isSome && b.cosponsor_count == 0 && congressOutsideHistorical b)

/-! ## utils/api.py — RetryStrategy -/

/-- Result of `RetryStrategy.execute`: a returned value, the re-raised
final `RequestException`, or the `Exception("Retry strategy failed for
unknown reason")` raised when the loop body never runs
(`max_retries = 0`). -/
inductive RetryResult (ε α : Type) where
  | ok (a : α)
  | err (e : ε)
  | unknownFailure
  deriving DecidableEq, Repr

/-- The retry loop of `RetryStrategy.execute`, recursing on the number of
remaining attempts.  The operation is a function from the attempt index
to a result or a `RequestException`.  Returns the outcome, the number of
attempts made, and the list of back-off delays slept between consecutive
attempts (`base_delay * 2 ** attempt`). -/
def retryAttempts (op : Nat → Except ε α) (base_delay : Nat) (attempt : Nat) :
    Nat → RetryResult ε α × Nat × List Nat
  | 0 => (.unknownFailure, 0, [])
  | remaining + 1 =>
    match op attempt with
    | .ok a => (.ok a, 1, [])
    | .error e =>
      if remaining = 0 then (.err e, 1, [])
      else
        let (r, n, ds) := retryAttempts op base_delay (attempt + 1) remaining
        (r, n + 1, base_delay * 2 ^ attempt :: ds)

/-- Embedding of `RetryStrategy.execute` (utils/api.py): run the loop
from attempt 0 with `max_retries` attempts available (constructor
defaults: `max_retries = 3`, `base_delay = 1`). -/
def RetryStrategy.execute (op : Nat → Except ε α) (max_retries base_delay : Nat) :
    RetryResult ε α × Nat × List Nat :=
  retryAttempts op base_delay 0 max_retries

/-! ## utils/api.py — APIClient.get_paginated

The upstream API is modelled as the finite trace of responses returned to
the successive page requests.  The loop consumes one response per
iteration; a result of `none` means the loop did not stop within the
provided trace (the code would keep issuing requests). -/

/-- The `pagination` object of a response: whether the `next` key is
present, and the reported total count (never read by `get_paginated`). -/
structure PagePagination where
  hasNext : Bool
  count : Option Nat
  deriving DecidableEq, Repr

/-- Value found at `items_key`: a JSON list or some other shape (the
source logs a warning and accumulates nothing). -/
inductive ItemsVal where
  | list (xs : List String)
  | notList
  deriving DecidableEq, Repr

/-- One upstream page response: the value at `items_key` (if the key is
present), the first non-`pagination` list in the response (used by the
fallback when `items_key` is absent), and the `pagination` object. -/
structure PageResponse where
  items : Option ItemsVal
  otherItems : List String
  pagination : Option PagePagination
  deriving DecidableEq, Repr

/-- Items accumulated from one response. -/
def pageItems (r : PageResponse) : List String :=
  match r.items with
  | some (.list xs) => xs
  | some .notList => []
  | none => r.otherItems

/-- The loop's only exit test: `'pagination' not in response or 'next'
not in response['pagination']`. -/
def paginationStops (r : PageResponse) : Bool :=
  match r.pagination with
  | none => true
  | some p => !p.hasNext

/-- The `while True` loop of `get_paginated` over a response trace,
carrying the offset parameter (incremented by `limit` only when a next
page is requested) and the accumulator.  Returns the accumulated items
and final offset, or `none` when every provided response still reported
a next page. -/
def get_paginatedAux (limit : Nat) :
    List PageResponse → Nat → List String → Option (List String × Nat)
  | [], _, _ => none
  | r :: rest, offset, acc =>
    let acc2 := acc ++ pageItems r
    if paginationStops r then some (acc2, offset)
    else get_paginatedAux limit rest (offset + limit) acc2

/-- Embedding of `APIClient.get_paginated` (utils/api.py): start at the
caller's offset (default 0) with an empty accumulator. -/
def get_paginated (trace : List PageResponse) (limit offset0 : Nat) :
    Option (List String × Nat) :=
  get_paginatedAux limit trace offset0 []

/-! ## utils/bill_utils.py — normalize_bill_status -/

/-- Python `any(term in s for term in ts)`. -/
def anyTermIn (ts : List (List Char)) (s : List Char) : Bool :=
  ts.any (fun t => listContainsSub t s)

/-- Embedding of `normalize_bill_status` (utils/bill_utils.py): ordered
case-insensitive substring rules over the lower-cased action text. -/
def normalize_bill_status (action_text : String) : Option String :=
  if action_text = "" then none
  else
    let t := pyLower action_text.toList
    if anyTermIn ["became public law".toList, "became law".toList] t then some "Became Law"
    else if anyTermIn ["enacted".toList, "approved by president".toList] t then some "Enacted"
    else if listContainsSub "passed".toList t && listContainsSub "house".toList t then some "Passed House"
    else if listContainsSub "passed".toList t && listContainsSub "senate".toList t then some "Passed Senate"
    else if listContainsSub "placed on".toList t && listContainsSub "calendar".toList t
            && listContainsSub "senate".toList t then some "Reported"
    else if listContainsSub "placed on".toList t && listContainsSub "calendar".toList t
            && listContainsSub "union calendar".toList t then some "Reported"
    else if anyTermIn ["reported".toList, "ordered to be reported".toList] t then some "Reported"
    else if anyTermIn ["referred to".toList, "committee".toList] t then some "In Committee"
    else if listContainsSub "held at the desk".toList t then some "In Committee"
    else if anyTermIn ["introduced".toList, "introduction".toList] t then some "Introduced"
    else if listContainsSub "motion to reconsider laid on the table agreed to".toList t
            && listContainsSub "house".toList t then some "Passed House"
    else if listContainsSub "motion to reconsider laid on the table agreed to".toList t
            && listContainsSub "senate".toList t then some "Passed Senate"
    else none

/-! ## bill_fetch/bill_fetch_core.py

A raw API bill is a dictionary; every key the code reads is an `Option`
field (`none` = key absent or JSON null).  The `bills` table is a list of
rows; `SELECT … WHERE bill_number = %s` is a first-match lookup, and the
`INSERT … ON CONFLICT (bill_number) DO UPDATE` upsert replaces the first
row with the same key or appends a new row.  The per-record `try/except`
becomes an explicit outcome; in this typed embedding the only statement
that can raise is `datetime.fromisoformat` on a malformed `updateDate`.
The policy-area tag side table and the raw-JSON file dump are outside the
tracked state. -/

/-- The `latestAction` sub-dictionary. -/
structure LatestAction where
  text : Option String
  actionDate : Option String
  deriving DecidableEq, Repr

/-- An entry of the `sponsors` list. -/
structure SponsorRec where
  bioguideId : Option String
  deriving DecidableEq, Repr

/-- The `policyArea` sub-dictionary. -/
structure PolicyAreaRec where
  name : Option String
  deriving DecidableEq, Repr

/-- A raw bill dictionary, restricted to the keys `update_database`
reads. -/
structure RawBill where
  btype : Option String
  number : Option String
  title : Option String
  sponsors : Option (List SponsorRec)
  introducedDate : Option String
  congress : Option Int
  latestAction : Option LatestAction
  policyArea : Option PolicyAreaRec
  updateDate : Option String
  deriving DecidableEq, Repr

/-- Python truthiness of the bill dictionary: `not bill` is true exactly
for the empty dictionary. -/
def RawBill.isEmptyDict (b : RawBill) : Bool :=
  b.btype.isNone && b.number.isNone && b.title.isNone && b.sponsors.isNone
    && b.introducedDate.isNone && b.congress.isNone && b.latestAction.isNone
    && b.policyArea.isNone && b.updateDate.isNone

/-- The value at key `'bill'` of a batch element: absent/null, a single
dictionary (modern bills), or a list of dictionaries (historical
bills). -/
inductive BillField where
  | absent
  | obj (b : RawBill)
  | arr (bs : List RawBill)
  deriving DecidableEq, Repr

/-- One element of the fetched batch. -/
structure BillItem where
  bill : BillField
  deriving DecidableEq, Repr

/-- Sort key of `get_bill_data`: `x.get('updateDate', '')`. -/
def updateDateKey (b : RawBill) : List Char :=
  (b.updateDate.getD "").toList

/-- Embedding of `get_bill_data` (bill_fetch_core.py): a list payload is
sorted by `updateDate` string descending (stable, like Python's
`sorted(…, reverse=True)`) and the first entry is used; an empty list or
an absent value yields `None`. -/
def get_bill_data : BillField → Option RawBill
  | .absent => none
  | .obj b => some b
  | .arr [] => none
  | .arr (b :: bs) =>
    match sortStable (fun x y => !pyStrLt (updateDateKey x) (updateDateKey y)) (b :: bs) with
    | [] => none
    | best :: _ => some best

/-- A row of the `bills` table, restricted to the columns
`update_database` writes, plus the generated `id`. -/
structure BillRow where
  id : Nat
  bill_number : String
  bill_title : String
  sponsor_id : Option String
  introduced_date : Option String
  congress : Option Int
  status : String
  normalized_status : Option String
  latest_action : String
  latest_action_date : Option String
  bill_type : String
  policy_area : Option String
  last_updated : Option PyDateTime
  deriving DecidableEq, Repr

/-- First-match row lookup, the embedding of
`SELECT … FROM bills WHERE bill_number = %s` with `fetchone()`. -/
def findBillRow (db : List BillRow) (k : String) : Option BillRow :=
  db.find? (fun row => row.bill_number == k)

/-- Upsert keyed on `bill_number`: replace the first row with the same
key, or append. -/
def upsertBillRow (nr : BillRow) : List BillRow → List BillRow
  | [] => [nr]
  | row :: rest =>
    if row.bill_number == nr.bill_number then nr :: rest
    else row :: upsertBillRow nr rest

/-- The `stats` dictionary of the bill `update_database`. -/
structure BillStats where
  inserted : Nat
  updated : Nat
  skipped : Nat
  error : Nat
  historical : Nat
  deriving DecidableEq, Repr

/-- The all-zero initial `stats`. -/
def BillStats.init : BillStats := ⟨0, 0, 0, 0, 0⟩

/-- How a single batch record was classified by the loop body. -/
inductive RecOutcome where
  | recSkipped
  | recError
  | recUpdated
  | recInserted
  deriving DecidableEq, Repr

/-- The `bill_number` natural key built by the loop body:
`f"{bill.get('type', '')}{bill.get('number', '')}"`. -/
def billKey (b : RawBill) : String :=
  b.btype.getD "" ++ b.number.getD ""

/-- The body of the bill `update_database` loop after the empty-record
check: reconcile the record against the table and insert, update, skip
or (on a malformed `updateDate` with an existing row — the only
raise point left in this typed embedding) count an error.  `nowTs` is
the value the database produces for `CURRENT_TIMESTAMP` (and later
returns from the `last_updated` column). -/
def processBillBody (nowTs : PyDateTime) (db : List BillRow) (b : RawBill) :
    List BillRow × RecOutcome :=
  let bill_type := b.btype.getD ""
  let bill_number := billKey b
  let bill_title := b.title.getD ""
  let sponsor_id :=
    match b.sponsors with
    | some (s :: _) => s.bioguideId
    | _ => none
  let action_text := ((b.latestAction.getD ⟨none, none⟩).text).getD ""
  let action_date := (b.latestAction.getD ⟨none, none⟩).actionDate
  let policy_area := (b.policyArea.getD ⟨none⟩).name
  let existing := findBillRow db bill_number
  let upserted : Unit → List BillRow × RecOutcome := fun _ =>
    let newRow : BillRow :=
      { id := (existing.map (·.id)).getD db.length
        bill_number := bill_number
        bill_title := bill_title
        sponsor_id := sponsor_id
        introduced_date := b.introducedDate
        congress := b.congress
        status := action_text
        normalized_status := normalize_bill_status action_text
        latest_action := action_text
        latest_action_date := action_date
        bill_type := bill_type
        policy_area := policy_area
        last_updated := some nowTs }
    (upsertBillRow newRow db, if existing.isSome then .recUpdated else .recInserted)
  match existing, b.updateDate with
  | some row, some s =>
    if s = "" then upserted ()
    else
      match parseUpdateDate s with
      | none => (db, .recError)
      | some incoming =>
        let incomingNaive := incoming.stripTz
        match row.last_updated with
        | some dbTs =>
          let dbNaive := if dbTs.offset.isSome then dbTs.stripTz else dbTs
          if incomingNaive.civil ≤ dbNaive.civil then (db, .recSkipped)
          else upserted ()
        | none => upserted ()
  | _, _ => upserted ()

/-- One iteration of the bill `update_database` loop: extract the bill
(skipping empty payloads), count historical bills, and run the
reconciliation body.  The returned flag records whether
`stats["historical"]` was incremented. -/
def processBill (nowTs : PyDateTime) (db : List BillRow) (item : BillItem) :
    List BillRow × RecOutcome × Bool :=
  match get_bill_data item.bill with
  | none => (db, .recSkipped, false)
  | some b =>
    if b.isEmptyDict then (db, .recSkipped, false)
    else
      let r := processBillBody nowTs db b
      (r.1, r.2, is_historical_bill b.congress)

/-- Add one classified record to the running `stats`. -/
def BillStats.bump (s : BillStats) (o : RecOutcome) (hist : Bool) : BillStats :=
  { inserted := s.inserted + (if o = .recInserted then 1 else 0)
    updated := s.updated + (if o = .recUpdated then 1 else 0)
    skipped := s.skipped + (if o = .recSkipped then 1 else 0)
    error := s.error + (if o = .recError then 1 else 0)
    historical := s.historical + (if hist then 1 else 0) }

/-- One fold step of the bill `update_database` loop. -/
def billStep (nowTs : PyDateTime) (st : List BillRow × BillStats) (item : BillItem) :
    List BillRow × BillStats :=
  let (db2, o, h) := processBill nowTs st.1 item
  (db2, st.2.bump o h)

/-- Embedding of the bill `update_database` (bill_fetch_core.py): fold
the loop body over the batch, starting from zero counters. -/
def bill_update_database (nowTs : PyDateTime) (db : List BillRow) (bills : List BillItem) :
    List BillRow × BillStats :=
  bills.foldl (billStep nowTs) (db, BillStats.init)

/-! ## members_fetch/member_fetch_core.py

Same embedding conventions as the bill variant.  Python integer fields
that the code converts with `int(…)` are modelled as
`Option (Option Int)`: outer `none` = key absent or JSON null, inner
`none` = a value `int(…)` rejects (raising `ValueError` to the
per-record handler).  The `member_terms` side table is outside the
tracked state (its loop catches its own `ValueError` and cannot raise
otherwise in this typed embedding). -/

/-- Embedding of `format_full_name` (utils/member_utils.py) at the call
shape used by `update_database` (no suffix). -/
def format_full_name (first_name middle_name last_name : String) : String :=
  String.intercalate " " (([first_name, middle_name, last_name]).filter (fun p => p ≠ ""))

/-- One entry of `member['terms']['item']`. -/
structure MemberTerm where
  chamber : Option String
  startYear : Option (Option Int)
  endYear : Option (Option Int)
  state : Option String
  district : Option Int
  deriving DecidableEq, Repr

/-- The `depiction` sub-dictionary. -/
structure Depiction where
  imageUrl : Option String
  deriving DecidableEq, Repr

/-- A raw member dictionary, restricted to the keys `update_database`
reads; `terms` stands for `member.get('terms', {}).get('item', [])`. -/
structure RawMember where
  bioguideId : Option String
  name : Option String
  directOrderName : Option String
  state : Option String
  district : Option Int
  partyName : Option String
  terms : List MemberTerm
  depiction : Option Depiction
  updateDate : Option String
  deriving DecidableEq, Repr

/-- A row of the `members` table, restricted to the columns
`update_database` writes, plus the generated `id`. -/
structure MemberRow where
  id : Nat
  bioguide_id : String
  first_name : String
  last_name : String
  full_name : String
  state : Option String
  district : Option Int
  party : String
  chamber : Option String
  photo_url : Option String
  current_member : Bool
  last_updated : Option PyDateTime
  deriving DecidableEq, Repr

/-- First-match lookup on `bioguide_id`. -/
def findMemberRow (db : List MemberRow) (k : String) : Option MemberRow :=
  db.find? (fun row => row.bioguide_id == k)

/-- Upsert keyed on `bioguide_id`. -/
def upsertMemberRow (nr : MemberRow) : List MemberRow → List MemberRow
  | [] => [nr]
  | row :: rest =>
    if row.bioguide_id == nr.bioguide_id then nr :: rest
    else row :: upsertMemberRow nr rest

/-- The `stats` dictionary of the member `update_database` (no
`historical` counter). -/
structure MemberStats where
  inserted : Nat
  updated : Nat
  skipped : Nat
  error : Nat
  deriving DecidableEq, Repr

/-- The all-zero initial member `stats`. -/
def MemberStats.init : MemberStats := ⟨0, 0, 0, 0⟩

/-- The flag `current_member = end_year is None or int(end_year) >=
current_year`; `none` models the `ValueError` raised by `int` on a
non-numeric value. -/
def currentMemberFlag (current_year : Int) : Option (Option Int) → Option Bool
  | none => some true
  | some none => none
  | some (some y) => some (current_year ≤ y)

/-- One iteration of the member `update_database` loop.  Differences from
the bill variant, straight from the source: a missing/empty `bioguideId`
is skipped; `int(end_year)` on a non-numeric term end year raises to the
per-record handler; the timestamp comparison keeps the parsed offset
(there is no `replace(tzinfo=None)`), so comparing it with an
offset-naive stored value raises `TypeError` to the per-record handler;
and a `ValueError` from `fromisoformat` is caught by an inner handler
that falls through to the update. -/
def processMember (current_year : Int) (nowTs : PyDateTime) (db : List MemberRow)
    (m : RawMember) : List MemberRow × RecOutcome :=
  match m.bioguideId with
  | none => (db, .recSkipped)
  | some bioguide_id =>
    if bioguide_id = "" then (db, .recSkipped)
    else
      let name_parts := parse_member_name (m.name.getD "")
      let first_name := name_parts.first_name
      let last_name := name_parts.last_name
      let full_name :=
        match m.directOrderName with
        | some s => if s ≠ "" then s else format_full_name first_name name_parts.middle_name last_name
        | none => format_full_name first_name name_parts.middle_name last_name
      let party_name := (parse_party_name (m.partyName.getD "")).1
      let current_term := m.terms.getLast?
      let chamber := (current_term.getD ⟨none, none, none, none, none⟩).chamber
      match currentMemberFlag current_year (current_term.getD ⟨none, none, none, none, none⟩).endYear with
      | none => (db, .recError)
      | some current_member =>
        let photo_url := (m.depiction.getD ⟨none⟩).imageUrl
        let existing := findMemberRow db bioguide_id
        let upserted : Unit → List MemberRow × RecOutcome := fun _ =>
          let newRow : MemberRow :=
            { id := (existing.map (·.id)).getD db.length
              bioguide_id := bioguide_id
              first_name := first_name
              last_name := last_name
              full_name := full_name
              state := m.state
              district := m.district
              party := party_name
              chamber := chamber
              photo_url := photo_url
              current_member := current_member
              last_updated := some nowTs }
          (upsertMemberRow newRow db, if existing.isSome then .recUpdated else .recInserted)
        match existing, m.updateDate with
        | some row, some s =>
          if s = "" then upserted ()
          else
            match parseUpdateDate s with
            | none => upserted ()
            | some incoming =>
              match row.last_updated with
              | some dbTs =>
                match pyDtGe dbTs incoming with
                | none => (db, .recError)
                | some true => (db, .recSkipped)
                | some false => upserted ()
              | none => upserted ()
        | _, _ => upserted ()

/-- Add one classified record to the running member `stats`. -/
def MemberStats.bump (s : MemberStats) (o : RecOutcome) : MemberStats :=
  { inserted := s.inserted + (if o = .recInserted then 1 else 0)
    updated := s.updated + (if o = .recUpdated then 1 else 0)
    skipped := s.skipped + (if o = .recSkipped then 1 else 0)
    error := s.error + (if o = .recError then 1 else 0) }

/-- One fold step of the member `update_database` loop. -/
def memberStep (current_year : Int) (nowTs : PyDateTime)
    (st : List MemberRow × MemberStats) (m : RawMember) : List MemberRow × MemberStats :=
  let (db2, o) := processMember current_year nowTs st.1 m
  (db2, st.2.bump o)

/-- Embedding of the member `update_database` (member_fetch_core.py). -/
def member_update_database (current_year : Int) (nowTs : PyDateTime)
    (db : List MemberRow) (members : List RawMember) : List MemberRow × MemberStats :=
  members.foldl (memberStep current_year nowTs) (db, MemberStats.init)

/-! ## Sync-status outcome of the orchestrator mains -/

/-- The status values written to the `api_sync_status` table. -/
inductive SyncStatus where
  | in_progress
  | success
  | completed_with_errors
  | failed (msg : String)
  deriving DecidableEq, Repr

/-- Embedding of the tail of `bill_fetch_core.main`: everything before
and including the fetch is summarized as an `Except` (an exception
anywhere in the `try` block reaches the `except` clause, which writes
`failed` with the message); when the fetch succeeds, `update_database`
runs — its per-record errors are counted inside `stats` and never
propagate — and the final write is unconditionally `success`.  Returns
the final status together with the batch statistics. -/
def billFetchRun (fetchResult : Except String (List BillItem)) (nowTs : PyDateTime)
    (db : List BillRow) : SyncStatus × BillStats :=
  match fetchResult with
  | .error e => (.failed e, BillStats.init)
  | .ok bills => (.success, (bill_update_database nowTs db bills).2)

/-- Embedding of the tail of `bill_detail_processor.main`: each bill's
processing yields `true` (result status `'success'`, counted in
`processed_count`) or `false` (any other result status, or an exception
caught by the per-bill handler; counted in `error_count`); an exception
escaping the loop reaches the outer handler.  The final write is
`success` when `error_count == 0`, else `completed_with_errors`, and
`failed` with the message on an escaping exception. -/
def detailProcessorRun (results : Except String (List Bool)) : SyncStatus :=
  match results with
  | .error e => .failed e
  | .ok rs =>
    if rs.countP (fun b => b = false) = 0 then .success
    else .completed_with_errors

/-! ## bill_fetch/bill_detail_processor.py — process_text_versions -/

/-- One entry of a version's `formats` list; `display_type` is the key
added by the normalization loop. -/
structure VersionFormat where
  ftype : Option String
  display_type : Option String
  deriving DecidableEq, Repr

/-- One text version dictionary, restricted to the keys the method
touches; `is_initial_version` is the key added for filled dates. -/
structure TextVersion where
  date : Option String
  vtype : Option String
  formats : Option (List VersionFormat)
  is_initial_version : Option Bool
  deriving DecidableEq, Repr

/-- The `type_importance` dictionary lookup with default 999. -/
def type_importance (t : String) : Nat :=
  if t = "Public Law" then 1
  else if t = "Enrolled Bill" then 2
  else if t = "Engrossed in Senate" then 3
  else if t = "Engrossed in House" then 3
  else if t = "Placed on Calendar Senate" then 4
  else if t = "Placed on Calendar House" then 4
  else 999

/-- The sort key `version_sort_key`: the pair `(version.get('date') or '',
type_importance.get(version.get('type', ''), 999))`. -/
def versionSortKey (v : TextVersion) : List Char × Nat :=
  ((v.date.getD "").toList, type_importance (v.vtype.getD ""))

/-- Tuple comparison giving `versions.sort(key=…, reverse=True)`:
`x` may precede `y` iff the key of `x` is not smaller than the key of
`y` in lexicographic tuple order. -/
def versionKeyGe (x y : TextVersion) : Bool :=
  let (dx, px) := versionSortKey x
  let (dy, py) := versionSortKey y
  pyStrLt dy dx || (dx == dy && py ≤ px)

/-- The `format_display_names` dictionary lookup with the raw type as
default. -/
def format_display_name (t : String) : String :=
  if t = "Formatted Text" then "HTML"
  else if t = "Formatted XML" then "XML"
  else if t = "PDF" then "PDF"
  else t

/-- The per-version format-normalization loop. -/
def applyFormatDisplay (v : TextVersion) : TextVersion :=
  match v.formats with
  | none => v
  | some fs =>
    { v with formats := some (fs.map (fun f =>
        { f with display_type := some (format_display_name (f.ftype.getD "")) })) }

/-- The null-date fill: a version with no date gets the introduced date
and the `is_initial_version` flag, provided the introduced date is
truthy. -/
def fillVersionDate (introduced_date : Option String) (v : TextVersion) : TextVersion :=
  match v.date, introduced_date with
  | none, some d => if d ≠ "" then { v with date := some d, is_initial_version := some true } else v
  | _, _ => v

/-- Embedding of `BillProcessor.process_text_versions`
(bill_detail_processor.py): fill null dates from the introduced date,
sort by `(date, type_importance)` with `reverse=True` (stable), then
normalize the format display names. -/
def process_text_versions (versions : List TextVersion) (introduced_date : Option String) :
    List TextVersion :=
  match versions with
  | [] => []
  | _ =>
    let filled := versions.map (fillVersionDate introduced_date)
    let sorted := sortStable versionKeyGe filled
    sorted.map applyFormatDisplay

/-! ## Theorems -/

/-- C5: evaluation of `process_text_versions` at the specification's own
scenario (versions Introduced/2020-01-01, Public Law/2020-06-01,
Engrossed in House/null with introduced date 2020-01-01).  The null date
is filled to 2020-01-01 and the version flagged initial, and the list is
sorted by date descending — but on the equal dates the
`sort(key=(date, importance), reverse=True)` call also reverses the
importance tiebreak, so the unlisted type `Introduced` (importance 999)
precedes `Engrossed in House` (importance 3), the opposite of the
claimed (and intended) most-authoritative-first order. -/
theorem C5_text_version_eval :
    process_text_versions
      [⟨some "2020-01-01", some "Introduced", none, none⟩,
       ⟨some "2020-06-01", some "Public Law", none, none⟩,
       ⟨none, some "Engrossed in House", none, none⟩]
      (some "2020-01-01")
    = [⟨some "2020-06-01", some "Public Law", none, none⟩,
       ⟨some "2020-01-01", some "Introduced", none, none⟩,
       ⟨some "2020-01-01", some "Engrossed in House", none, some true⟩]
    ∧ type_importance "Engrossed in House" = 3
    ∧ type_importance "Introduced" = 999 := by
  decide

/-- Closed form of the retry loop when every attempt fails. -/
theorem retryAttempts_all_errors {ε α : Type} (f : Nat → ε) (base : Nat) :
    ∀ (remaining attempt : Nat), 0 < remaining →
      retryAttempts (fun i => (Except.error (f i) : Except ε α)) base attempt remaining
        = (.err (f (attempt + remaining - 1)), remaining,
           (List.range (remaining - 1)).map (fun j => base * 2 ^ (attempt + j))) := by
  intro remaining
  induction remaining with
  | zero => intro attempt h; omega
  | succ r ih =>
    intro attempt _
    cases r with
    | zero =>
      simp [retryAttempts]
    | succ r' =>
      have hr : 0 < r' + 1 := Nat.succ_pos r'
      rw [retryAttempts]
      simp only [ih (attempt + 1) hr, Nat.succ_ne_zero, if_false, Prod.mk.injEq]
      refine ⟨by congr 2; omega, trivial, ?_⟩
      have hsimp : r' + 1 + 1 - 1 = (r' + 1 - 1) + 1 := by omega
      rw [hsimp, List.range_succ_eq_map]
      simp only [List.map_cons, List.map_map, List.cons.injEq]
      refine ⟨by simp, ?_⟩
      apply List.map_congr_left
      intro j _
      simp only [Function.comp_apply, Nat.succ_eq_add_one]
      have hj : attempt + 1 + j = attempt + (j + 1) := by omega
      rw [hj]

/-- C6: `RetryStrategy.execute` with a positive attempt budget makes
exactly `max_retries` attempts against an always-failing operation,
sleeping `base_delay * 2 ** attempt` between consecutive attempts, and
re-raises the error of the final attempt; an operation that succeeds on
its first invocation returns its result after a single attempt with no
sleeps. -/
theorem C6_retry_policy {ε α : Type} (f : Nat → ε) (op : Nat → Except ε α)
    (max_retries base_delay : Nat) (hmr : 0 < max_retries) :
    RetryStrategy.execute (fun i => (Except.error (f i) : Except ε α)) max_retries base_delay
      = (.err (f (max_retries - 1)), max_retries,
         (List.range (max_retries - 1)).map (fun j => base_delay * 2 ^ j))
    ∧ (∀ a, op 0 = .ok a →
        RetryStrategy.execute op max_retries base_delay = (.ok a, 1, [])) := by
  constructor
  · rw [RetryStrategy.execute, retryAttempts_all_errors f base_delay max_retries 0 hmr]
    simp
  · intro a ha
    obtain ⟨k, rfl⟩ := Nat.exists_eq_add_of_lt hmr
    rw [RetryStrategy.execute]
    simp only [Nat.zero_add, retryAttempts, ha]

/-- C6 witness: the retry policy at the constructor defaults
(`max_retries = 3`, `base_delay = 1`). -/
theorem C6_retry_policy_witness :
    (0 : Nat) < 3
    ∧ RetryStrategy.execute (fun _ => (Except.error "boom" : Except String Nat)) 3 1
        = (.err "boom", 3, [1, 2])
    ∧ RetryStrategy.execute (fun _ => (Except.ok 7 : Except String Nat)) 3 1
        = (.ok 7, 1, []) := by
  have h := C6_retry_policy (fun _ => "boom")
    (fun _ => (Except.ok 7 : Except String Nat)) 3 1 (by decide)
  refine ⟨by decide, ?_, h.2 7 rfl⟩
  rw [h.1]
  decide

/-- C7: for every stored bill whose congress is in [6, 42], the
missing-summary, missing-policy-area, missing-subjects and
missing-cosponsors queries exclude it while missing-text and
missing-actions still report it under their data predicates alone; for a
congress outside [6, 42] every query reports it exactly according to its
data predicate; and the range coincides with `is_historical_bill`. -/
theorem C7_historical_exclusion (bills : List DbBill) (b : DbBill) (c : Int)
    (hc : b.congress = some c) :
    (6 ≤ c ∧ c ≤ 42 →
      b ∉ missing_summary_query bills
      ∧ b ∉ missing_policy_area_query bills
      ∧ b ∉ missing_subjects_query bills
      ∧ b ∉ missing_cosponsors_query bills
      ∧ (b ∈ missing_text_query bills ↔ b ∈ bills ∧ b.text_versions_absent = true)
      ∧ (b ∈ missing_actions_query bills ↔ b ∈ bills ∧ b.action_count = 0))
    ∧ (c < 6 ∨ 42 < c →
      (b ∈ missing_summary_query bills ↔ b ∈ bills ∧ b.summary = none)
      ∧ (b ∈ missing_policy_area_query bills ↔ b ∈ bills ∧ b.tag_count = 0)
      ∧ (b ∈ missing_subjects_query bills ↔ b ∈ bills ∧ b.subject_count = 0)
      ∧ (b ∈ missing_cosponsors_query bills ↔
          b ∈ bills ∧ b.sponsor_id.isSome = true ∧ b.cosponsor_count = 0))
    ∧ (is_historical_bill (some c) = true ↔ 6 ≤ c ∧ c ≤ 42) := by
  refine ⟨?_, ?_, ?_⟩
  · intro hin
    have hout : congressOutsideHistorical b = false := by
      simp only [congressOutsideHistorical, hc, Bool.or_eq_false_iff,
        decide_eq_false_iff_not, not_lt]
      omega
    refine ⟨?_, ?_, ?_, ?_, ?_, ?_⟩
    · simp [missing_summary_query, List.mem_filter, hout]
    · simp [missing_policy_area_query, List.mem_filter, hout]
    · simp [missing_subjects_query, List.mem_filter, hout]
    · simp [missing_cosponsors_query, List.mem_filter, hout]
    · simp [missing_text_query, List.mem_filter]
    · simp [missing_actions_query, List.mem_filter]
  · intro hout0
    have hout : congressOutsideHistorical b = true := by
      simp only [congressOutsideHistorical, hc, Bool.or_eq_true_iff, decide_eq_true_eq]
      omega
    refine ⟨?_, ?_, ?_, ?_⟩
    · simp [missing_summary_query, List.mem_filter, hout, Option.isNone_iff_eq_none]
    · simp [missing_policy_area_query, List.mem_filter, hout]
    · simp [missing_subjects_query, List.mem_filter, hout]
    · simp [missing_cosponsors_query, List.mem_filter, hout, and_assoc]
  · simp only [is_historical_bill, Bool.and_eq_true, decide_eq_true_eq]

/-- C7 witness: a historical bill (congress 20) lacking everything is
reported by the text and actions queries only. -/
theorem C7_historical_exclusion_witness :
    ((6 : Int) ≤ 20 ∧ (20 : Int) ≤ 42)
    ∧ (⟨"HR1", some 20, true, none, 0, some "S1", 0, 0, 0⟩ : DbBill)
        ∉ missing_summary_query [⟨"HR1", some 20, true, none, 0, some "S1", 0, 0, 0⟩]
    ∧ (⟨"HR1", some 20, true, none, 0, some "S1", 0, 0, 0⟩ : DbBill)
        ∈ missing_text_query [⟨"HR1", some 20, true, none, 0, some "S1", 0, 0, 0⟩] := by
  have h := C7_historical_exclusion
    [⟨"HR1", some 20, true, none, 0, some "S1", 0, 0, 0⟩]
    ⟨"HR1", some 20, true, none, 0, some "S1", 0, 0, 0⟩ 20 rfl
  have hrange : (6 : Int) ≤ 20 ∧ (20 : Int) ≤ 42 := by decide
  exact ⟨hrange, (h.1 hrange).1, ((h.1 hrange).2.2.2.2.1).mpr (by decide)⟩

/-- A separator that does not occur in a string is never found. -/
theorem splitFirst_eq_none (sep : List Char) :
    ∀ cs : List Char, listContainsSub sep cs = false → splitFirst sep cs = none := by
  intro cs
  induction cs with
  | nil => intro _; rfl
  | cons c rest ih =>
    intro h
    simp only [listContainsSub, Bool.or_eq_false_iff] at h
    simp [splitFirst, h.1, ih h.2]

/-- Splitting at an explicit first `", "` boundary: when the prefix does
not contain the separator, `splitFirst` returns exactly the two parts. -/
theorem splitFirst_comma_space (post : List Char) :
    ∀ pre : List Char, listContainsSub [',', ' '] pre = false →
      splitFirst [',', ' '] (pre ++ ',' :: ' ' :: post) = some (pre, post) := by
  intro pre
  induction pre with
  | nil =>
    intro _
    simp [splitFirst, List.isPrefixOf]
  | cons c pre' ih =>
    intro h
    simp only [listContainsSub, Bool.or_eq_false_iff] at h
    have hnp : ([',', ' '].isPrefixOf (c :: (pre' ++ ',' :: ' ' :: post))) = false := by
      cases pre' with
      | nil => simp [List.isPrefixOf]
      | cons d pre'' =>
        have := h.1
        simp only [List.isPrefixOf, List.cons_append] at this ⊢
        exact this
    simp [List.cons_append, splitFirst, List.append_eq, hnp, ih h.2]

/-- Splitting at an explicit first `' '` boundary. -/
theorem splitFirst_space (post : List Char) :
    ∀ pre : List Char, listContainsSub [' '] pre = false →
      splitFirst [' '] (pre ++ ' ' :: post) = some (pre, post) := by
  intro pre
  induction pre with
  | nil =>
    intro _
    simp [splitFirst, List.isPrefixOf]
  | cons c pre' ih =>
    intro h
    simp only [listContainsSub, Bool.or_eq_false_iff] at h
    have hnp : ([' '].isPrefixOf (c :: (pre' ++ ' ' :: post))) = false := by
      have := h.1
      simp only [List.isPrefixOf] at this ⊢
      simpa using this
    simp [List.cons_append, splitFirst, List.append_eq, hnp, ih h.2]

/-- C8 counterexample: `parse_member_name` does not split at a comma that
is not followed by a space — `"Smith,John"` contains a comma, yet the
whole string becomes the last name, not `Smith`/`John` as the claim
requires. -/
theorem C8_parse_name_counterexample :
    parse_member_name "Smith,John" = ⟨"Smith,John", "", ""⟩
    ∧ parse_member_name "Smith,John" ≠ ⟨"Smith", "John", ""⟩
    ∧ ',' ∈ "Smith,John".toList := by
  decide

/-- C8 (amended): `parse_member_name` splits at the first occurrence of
comma-followed-by-space.  A non-empty name without that separator is
returned whole (stripped) as the last name with empty first and middle
names; for `pre ++ ", " ++ f` with `f` space-free, `pre` is the last
name and `f` the first name; for `pre ++ ", " ++ f ++ " " ++ m` with `f`
space-free, `m` is additionally the middle name — each component
stripped. -/
theorem C8_parse_name_amended :
    (∀ name : String, name ≠ "" → listContainsSub [',', ' '] name.toList = false →
      parse_member_name name = ⟨⟨pyStrip name.toList⟩, "", ""⟩)
    ∧ (∀ pre f : List Char, listContainsSub [',', ' '] pre = false →
        listContainsSub [' '] f = false →
        parse_member_name ⟨pre ++ ',' :: ' ' :: f⟩ = ⟨⟨pyStrip pre⟩, ⟨pyStrip f⟩, ""⟩)
    ∧ (∀ pre f m : List Char, listContainsSub [',', ' '] pre = false →
        listContainsSub [' '] f = false →
        parse_member_name ⟨pre ++ ',' :: ' ' :: (f ++ ' ' :: m)⟩ =
          ⟨⟨pyStrip pre⟩, ⟨pyStrip f⟩, ⟨pyStrip m⟩⟩) := by
  refine ⟨?_, ?_, ?_⟩
  · intro name hne h
    rw [parse_member_name, if_neg hne, splitFirst_eq_none _ _ h]
  · intro pre f hpre hf
    have hne : (⟨pre ++ ',' :: ' ' :: f⟩ : String) ≠ "" := by
      intro hcon
      have : pre ++ ',' :: ' ' :: f = [] := congrArg String.toList hcon
      simp at this
    rw [parse_member_name, if_neg hne]
    have htl : (⟨pre ++ ',' :: ' ' :: f⟩ : String).toList = pre ++ ',' :: ' ' :: f := rfl
    rw [htl, splitFirst_comma_space f pre hpre]
    simp only [splitFirst_eq_none _ _ hf]
  · intro pre f m hpre hf
    have hne : (⟨pre ++ ',' :: ' ' :: (f ++ ' ' :: m)⟩ : String) ≠ "" := by
      intro hcon
      have : pre ++ ',' :: ' ' :: (f ++ ' ' :: m) = [] := congrArg String.toList hcon
      simp at this
    rw [parse_member_name, if_neg hne]
    have htl : (⟨pre ++ ',' :: ' ' :: (f ++ ' ' :: m)⟩ : String).toList
        = pre ++ ',' :: ' ' :: (f ++ ' ' :: m) := rfl
    rw [htl, splitFirst_comma_space _ pre hpre]
    simp only [splitFirst_space m f hf]

/-- C8 witness: the amended behavior at `"Smith, John Q."` and
`"Smith"`. -/
theorem C8_parse_name_witness :
    parse_member_name "Smith, John Q." = ⟨"Smith", "John", "Q."⟩
    ∧ parse_member_name "Smith" = ⟨"Smith", "", ""⟩ := by
  constructor
  · have h := C8_parse_name_amended.2.2 "Smith".toList "John".toList "Q.".toList
      (by decide) (by decide)
    rw [show "Smith".toList ++ ',' :: ' ' :: ("John".toList ++ ' ' :: "Q.".toList)
        = "Smith, John Q.".toList from by decide] at h
    rw [show (⟨"Smith, John Q.".toList⟩ : String) = "Smith, John Q." from rfl] at h
    rw [h]
    decide
  · have h := C8_parse_name_amended.1 "Smith" (by decide) (by decide)
    rw [h]
    decide

/-- A `find?` over a list returns the entry at index `i` when the
predicate holds there and fails at every earlier index. -/
theorem find?_eq_get_of_first {α : Type} (p : α → Bool) :
    ∀ (l : List α) (i : Nat) (hi : i < l.length),
      p (l.get ⟨i, hi⟩) = true →
      (∀ j, j < i → ∀ hj2 : j < l.length, p (l.get ⟨j, hj2⟩) = false) →
      l.find? p = some (l.get ⟨i, hi⟩) := by
  intro l
  induction l with
  | nil => intro i hi; simp at hi
  | cons a t ih =>
    intro i hi hp hfirst
    cases i with
    | zero =>
      simp only [List.get] at hp
      simp [List.find?, hp]
    | succ k =>
      have ha : p a = false := hfirst 0 (Nat.succ_pos k) (Nat.succ_pos t.length)
      simp only [List.find?, ha]
      have hk : k < t.length := Nat.lt_of_succ_lt_succ hi
      have := ih k hk hp (fun j hj hj2 => hfirst (j + 1) (Nat.succ_lt_succ hj) (Nat.succ_lt_succ hj2))
      simpa using this

/-- C10 counterexample: `" independent "` is non-empty, is not
case-insensitively equal to any key of the variant map, and the first
key in the fixed order occurring as a substring of its lower-cased form
is `"d"` (value `("Democrat", "D")`) — yet `parse_party_name` returns
`("Independent", "I")`, because the exact-match branch runs on the
whitespace-stripped lowering, not on the lowering alone. -/
theorem C10_party_counterexample :
    parse_party_name " independent " = ("Independent", "I")
    ∧ party_map.find? (fun kv => kv.1 == pyLower " independent ".toList) = none
    ∧ party_map.find? (fun kv => listContainsSub kv.1 (pyLower " independent ".toList))
        = some ("d".toList, ("Democrat", "D"))
    ∧ parse_party_name " independent " ≠ ("Democrat", "D") := by
  decide

/-- C10 (amended): for a non-empty party string whose lower-cased,
whitespace-stripped form is not an exact key of the variant map, the
result is the value of the first key (in the fixed order republican, r,
gop, democrat, democratic, d, independent, i, libertarian, l, green, g)
occurring as a substring of that stripped lowering; when no key occurs,
the verbatim fallback returns the input with its upper-cased first
character as code.  Consequently `"Federalist"` normalizes to
`("Republican", "R")`. -/
theorem C10_party_amended :
    (∀ (party : String) (i : Nat) (hi : i < party_map.length),
      party ≠ "" →
      party_map.find? (fun kv => kv.1 == pyStrip (pyLower party.toList)) = none →
      listContainsSub (party_map.get ⟨i, hi⟩).1 (pyStrip (pyLower party.toList)) = true →
      (∀ j, j < i → ∀ hj2 : j < party_map.length,
        listContainsSub (party_map.get ⟨j, hj2⟩).1 (pyStrip (pyLower party.toList)) = false) →
      parse_party_name party = (party_map.get ⟨i, hi⟩).2)
    ∧ (∀ (party : String) (c : Char) (rest : List Char),
      party.toList = c :: rest →
      party_map.find? (fun kv => kv.1 == pyStrip (pyLower party.toList)) = none →
      (∀ kv ∈ party_map, listContainsSub kv.1 (pyStrip (pyLower party.toList)) = false) →
      parse_party_name party = (party, String.mk [c.toUpper]))
    ∧ parse_party_name "Federalist" = ("Republican", "R") := by
  refine ⟨?_, ?_, by decide⟩
  · intro party i hi hne hexact hsub hfirst
    rw [parse_party_name, if_neg hne]
    simp only [hexact,
      find?_eq_get_of_first (fun kv => listContainsSub kv.1 (pyStrip (pyLower party.toList)))
        party_map i hi hsub hfirst]
  · intro party c rest htl hexact hnone
    have hne : party ≠ "" := by
      intro hcon
      rw [hcon] at htl
      simp at htl
    have hn : party_map.find?
        (fun kv => listContainsSub kv.1 (pyStrip (pyLower party.toList))) = none :=
      List.find?_eq_none.mpr (by intro x hx; exact ne_true_of_eq_false (hnone x hx))
    rw [parse_party_name, if_neg hne]
    simp only [hexact, hn]
    rw [htl]

/-- C10 witness: the amended rule applied to `"Federalist"` (first
matching key `"r"`, index 1) and to `"xyz"` (no matching key, verbatim
fallback). -/
theorem C10_party_witness :
    parse_party_name "Federalist" = ("Republican", "R")
    ∧ parse_party_name "xyz" = ("xyz", "X") := by
  constructor
  · have h := C10_party_amended.1 "Federalist" 1 (by decide) (by decide) (by decide)
      (by decide) (fun j hj hj2 => by
        have hj0 : j = 0 := by omega
        subst hj0
        exact (by decide :
          listContainsSub ("republican".toList) (pyStrip (pyLower "Federalist".toList)) = false))
    rw [h]
    decide
  · have h := C10_party_amended.2.1 "xyz" 'x' ['y', 'z'] (by decide) (by decide)
      (by decide)
    rw [h]
    decide

/-- C3 counterexample: a list-fetch run (`bill_fetch_core.main`) whose
batch completes with one per-record error (a malformed `updateDate` on an
existing row) still writes `success`, not `completed_with_errors` as the
claim requires for every orchestrator. -/
theorem C3_sync_status_counterexample :
    billFetchRun
      (.ok [⟨.obj ⟨some "HR", some "1", some "T", none, none, some 117, none, none,
        some "not-a-date"⟩⟩])
      ⟨100, none⟩
      [⟨0, "HR1", "T", none, none, some 117, "", none, "", none, "HR", none, some ⟨50, none⟩⟩]
    = (.success, ⟨0, 0, 0, 1, 0⟩)
    ∧ SyncStatus.success ≠ SyncStatus.completed_with_errors := by
  constructor
  · rfl
  · decide

/-- C3 (amended): the detail processor (`bill_detail_processor.main`)
maps zero per-record errors to `success`, one or more to
`completed_with_errors`, and an escaping exception to `failed` with the
message; the list-fetch orchestrator (`bill_fetch_core.main`) writes
`failed` with the message on an escaping exception but otherwise always
writes `success`, regardless of the per-record error count. -/
theorem C3_sync_status_amended :
    (∀ e : String, detailProcessorRun (.error e) = .failed e)
    ∧ (∀ rs : List Bool,
        (rs.countP (fun b => b = false) = 0 → detailProcessorRun (.ok rs) = .success)
        ∧ (0 < rs.countP (fun b => b = false) →
            detailProcessorRun (.ok rs) = .completed_with_errors))
    ∧ (∀ (e : String) (nowTs : PyDateTime) (db : List BillRow),
        (billFetchRun (.error e) nowTs db).1 = .failed e)
    ∧ (∀ (bills : List BillItem) (nowTs : PyDateTime) (db : List BillRow),
        (billFetchRun (.ok bills) nowTs db).1 = .success) := by
  refine ⟨fun e => rfl, ?_, fun e nowTs db => rfl, fun bills nowTs db => rfl⟩
  intro rs
  constructor
  · intro h
    rw [detailProcessorRun, if_pos h]
  · intro h
    rw [detailProcessorRun]
    simp only [if_neg (by omega : ¬ rs.countP (fun b => b = false) = 0)]

/-- C3 witness: the amended mapping at concrete run outcomes. -/
theorem C3_sync_status_witness :
    detailProcessorRun (.ok [true, false]) = .completed_with_errors
    ∧ detailProcessorRun (.ok [true, true]) = .success
    ∧ detailProcessorRun (.error "boom") = .failed "boom" := by
  refine ⟨(C3_sync_status_amended.2.1 [true, false]).2 (by decide),
    (C3_sync_status_amended.2.1 [true, true]).1 (by decide),
    C3_sync_status_amended.1 "boom"⟩

/-- The pagination loop never stops within a trace whose responses all
report a next page. -/
theorem get_paginatedAux_none (limit : Nat) :
    ∀ (trace : List PageResponse) (off : Nat) (acc : List String),
      (∀ r ∈ trace, paginationStops r = false) →
      get_paginatedAux limit trace off acc = none := by
  intro trace
  induction trace with
  | nil => intro off acc _; rfl
  | cons r rest ih =>
    intro off acc h
    have hr : paginationStops r = false := h r (List.mem_cons_self r rest)
    simp only [get_paginatedAux, hr, Bool.false_eq_true, if_false]
    exact ih _ _ (fun q hq => h q (List.mem_cons_of_mem r hq))

/-- The pagination loop stops exactly at the first response lacking the
`next` indicator, having accumulated the items of every consumed page
and advanced the offset once per continued page. -/
theorem get_paginatedAux_stop (limit : Nat) (r : PageResponse) (post : List PageResponse)
    (hr : paginationStops r = true) :
    ∀ (pre : List PageResponse) (off : Nat) (acc : List String),
      (∀ q ∈ pre, paginationStops q = false) →
      get_paginatedAux limit (pre ++ r :: post) off acc
        = some (acc ++ (pre.map pageItems).flatten ++ pageItems r, off + limit * pre.length) := by
  intro pre
  induction pre with
  | nil =>
    intro off acc _
    simp [get_paginatedAux, hr]
  | cons q pre' ih =>
    intro off acc h
    have hq : paginationStops q = false := h q (List.mem_cons_self q pre')
    simp only [List.cons_append, get_paginatedAux, List.append_eq, hq, Bool.false_eq_true,
      if_false]
    rw [ih (off + limit) (acc ++ pageItems q) (fun p hp => h p (List.mem_cons_of_mem q hp))]
    congr 1
    rw [Prod.mk.injEq]
    constructor
    · simp [List.append_assoc]
    · simp [List.length_cons]
      ring

/-- C4 counterexample: against an API double whose every response
reports a next page while reporting a total count of 1, `get_paginated`
does not stop within one response — nor within three — although the
offset (250) meets or exceeds the reported count after the very first
page, contradicting the claimed count-based stop. -/
theorem C4_pagination_counterexample :
    get_paginated [⟨some (.list ["a"]), [], some ⟨true, some 1⟩⟩] 250 0 = none
    ∧ get_paginated
        [⟨some (.list ["a"]), [], some ⟨true, some 1⟩⟩,
         ⟨some (.list ["a"]), [], some ⟨true, some 1⟩⟩,
         ⟨some (.list ["a"]), [], some ⟨true, some 1⟩⟩] 250 0 = none
    ∧ (1 : Nat) ≤ 0 + 250 := by
  decide

/-- C4 (amended): `get_paginated` accumulates the `items_key` list of
every consumed page and stops exactly when a response omits the
`pagination` object or its `next` key; the server-reported total count
is never consulted, so the loop runs beyond the end of any all-next
response trace. -/
theorem C4_pagination_amended :
    (∀ (trace : List PageResponse) (limit off0 : Nat),
      (∀ r ∈ trace, paginationStops r = false) →
      get_paginated trace limit off0 = none)
    ∧ (∀ (pre : List PageResponse) (r : PageResponse) (post : List PageResponse)
        (limit off0 : Nat),
      (∀ q ∈ pre, paginationStops q = false) → paginationStops r = true →
      get_paginated (pre ++ r :: post) limit off0
        = some ((pre.map pageItems).flatten ++ pageItems r, off0 + limit * pre.length)) := by
  constructor
  · intro trace limit off0 h
    exact get_paginatedAux_none limit trace off0 [] h
  · intro pre r post limit off0 h hr
    rw [get_paginated, get_paginatedAux_stop limit r post hr pre off0 [] h]
    simp

/-- C4 witness: a two-page trace whose second response omits `next`
yields the concatenated items. -/
theorem C4_pagination_witness :
    get_paginated
      [⟨some (.list ["a", "b"]), [], some ⟨true, some 4⟩⟩,
       ⟨some (.list ["c"]), [], some ⟨false, some 4⟩⟩] 250 0
    = some (["a", "b", "c"], 250) := by
  have h := C4_pagination_amended.2
    [⟨some (.list ["a", "b"]), [], some ⟨true, some 4⟩⟩]
    ⟨some (.list ["c"]), [], some ⟨false, some 4⟩⟩ [] 250 0
    (by decide) (by decide)
  rw [show ([⟨some (.list ["a", "b"]), [], some ⟨true, some 4⟩⟩] : List PageResponse)
      ++ ⟨some (.list ["c"]), [], some ⟨false, some 4⟩⟩ :: []
      = [⟨some (.list ["a", "b"]), [], some ⟨true, some 4⟩⟩,
         ⟨some (.list ["c"]), [], some ⟨false, some 4⟩⟩] from rfl] at h
  rw [h]
  decide

/-- Whether a batch record increments the `historical` counter: its
extracted bill is a non-empty dictionary whose congress is in
[6, 42] — independent of how the record is then classified. -/
def billHistFlag (item : BillItem) : Bool :=
  match get_bill_data item.bill with
  | none => false
  | some b => !b.isEmptyDict && is_historical_bill b.congress

/-- The historical flag produced by the loop body equals `billHistFlag`,
whatever the table state. -/
theorem processBill_hist (nowTs : PyDateTime) (db : List BillRow) (item : BillItem) :
    (processBill nowTs db item).2.2 = billHistFlag item := by
  rw [processBill, billHistFlag]
  cases get_bill_data item.bill with
  | none => rfl
  | some b =>
    by_cases h : b.isEmptyDict = true
    · simp [h]
    · simp [h]

/-- Each classified record adds exactly one to the four-way counter
sum. -/
theorem billStats_bump_sum (s : BillStats) (o : RecOutcome) (h : Bool) :
    (s.bump o h).inserted + (s.bump o h).updated + (s.bump o h).skipped + (s.bump o h).error
      = s.inserted + s.updated + s.skipped + s.error + 1 := by
  cases o <;> simp [BillStats.bump] <;> omega

/-- The `bump` effect on the historical counter. -/
theorem BillStats.bump_historical (s : BillStats) (o : RecOutcome) (h : Bool) :
    (s.bump o h).historical = s.historical + (if h then 1 else 0) := rfl

/-- One fold step of the bill loop, in projection form. -/
theorem billStep_eq (nowTs : PyDateTime) (db : List BillRow) (s0 : BillStats)
    (item : BillItem) :
    billStep nowTs (db, s0) item
      = ((processBill nowTs db item).1,
         s0.bump (processBill nowTs db item).2.1 (processBill nowTs db item).2.2) := by
  rw [billStep]

/-- Counter bookkeeping over the whole bill fold. -/
theorem bill_fold_stats (nowTs : PyDateTime) :
    ∀ (batch : List BillItem) (db : List BillRow) (s0 : BillStats),
      ((batch.foldl (billStep nowTs) (db, s0)).2.inserted
          + (batch.foldl (billStep nowTs) (db, s0)).2.updated
          + (batch.foldl (billStep nowTs) (db, s0)).2.skipped
          + (batch.foldl (billStep nowTs) (db, s0)).2.error
        = s0.inserted + s0.updated + s0.skipped + s0.error + batch.length)
      ∧ (batch.foldl (billStep nowTs) (db, s0)).2.historical
        = s0.historical + batch.countP billHistFlag := by
  intro batch
  induction batch with
  | nil => intro db s0; simp
  | cons item rest ih =>
    intro db s0
    rw [List.foldl_cons, billStep_eq]
    obtain ⟨h1, h2⟩ := ih (processBill nowTs db item).1
      (s0.bump (processBill nowTs db item).2.1 (processBill nowTs db item).2.2)
    constructor
    · rw [h1, billStats_bump_sum, List.length_cons]
      omega
    · rw [h2, BillStats.bump_historical, processBill_hist, List.countP_cons]
      omega

/-- Each classified member record adds exactly one to the four-way
counter sum. -/
theorem memberStats_bump_sum (s : MemberStats) (o : RecOutcome) :
    (s.bump o).inserted + (s.bump o).updated + (s.bump o).skipped + (s.bump o).error
      = s.inserted + s.updated + s.skipped + s.error + 1 := by
  cases o <;> simp [MemberStats.bump] <;> omega

/-- One fold step of the member loop, in projection form. -/
theorem memberStep_eq (cy : Int) (nowTs : PyDateTime) (db : List MemberRow)
    (s0 : MemberStats) (m : RawMember) :
    memberStep cy nowTs (db, s0) m
      = ((processMember cy nowTs db m).1,
         s0.bump (processMember cy nowTs db m).2) := by
  rw [memberStep]

/-- Counter bookkeeping over the whole member fold. -/
theorem member_fold_stats (cy : Int) (nowTs : PyDateTime) :
    ∀ (ms : List RawMember) (db : List MemberRow) (s0 : MemberStats),
      (ms.foldl (memberStep cy nowTs) (db, s0)).2.inserted
          + (ms.foldl (memberStep cy nowTs) (db, s0)).2.updated
          + (ms.foldl (memberStep cy nowTs) (db, s0)).2.skipped
          + (ms.foldl (memberStep cy nowTs) (db, s0)).2.error
        = s0.inserted + s0.updated + s0.skipped + s0.error + ms.length := by
  intro ms
  induction ms with
  | nil => intro db s0; simp
  | cons m rest ih =>
    intro db s0
    rw [List.foldl_cons, memberStep_eq]
    have h1 := ih (processMember cy nowTs db m).1
      (s0.bump (processMember cy nowTs db m).2)
    rw [h1, memberStats_bump_sum, List.length_cons]
    omega

/-- C9: in both `update_database` variants every record of the batch
increments exactly one of the counters inserted, updated, skipped or
error, so the four counters sum to the batch length; in the bill variant
the historical counter additionally counts exactly the records whose
extracted bill is a non-empty dictionary with congress in [6, 42],
independently of how the record was classified — in particular a
historical bill counts even when it is subsequently skipped. -/
theorem C9_stats_invariant :
    (∀ (nowTs : PyDateTime) (db : List BillRow) (batch : List BillItem),
      ((bill_update_database nowTs db batch).2.inserted
          + (bill_update_database nowTs db batch).2.updated
          + (bill_update_database nowTs db batch).2.skipped
          + (bill_update_database nowTs db batch).2.error
        = batch.length)
      ∧ (bill_update_database nowTs db batch).2.historical = batch.countP billHistFlag)
    ∧ (∀ (cy : Int) (nowTs : PyDateTime) (db : List MemberRow) (ms : List RawMember),
      (member_update_database cy nowTs db ms).2.inserted
          + (member_update_database cy nowTs db ms).2.updated
          + (member_update_database cy nowTs db ms).2.skipped
          + (member_update_database cy nowTs db ms).2.error
        = ms.length) := by
  constructor
  · intro nowTs db batch
    obtain ⟨h1, h2⟩ := bill_fold_stats nowTs batch db BillStats.init
    rw [bill_update_database]
    constructor
    · rw [h1]; simp [BillStats.init]
    · rw [h2]; simp [BillStats.init]
  · intro cy nowTs db ms
    have h1 := member_fold_stats cy nowTs ms db MemberStats.init
    rw [member_update_database, h1]
    simp [MemberStats.init]

/-- The civil reading compared on the stored side of the bill skip test
(`replace(tzinfo=None)` applied only when the value is offset-aware)
is the stored civil reading. -/
theorem dbNaive_civil (d : PyDateTime) :
    (if d.offset.isSome then d.stripTz else d).civil = d.civil := by
  by_cases h : d.offset.isSome <;> simp [h, PyDateTime.stripTz]

/-- C2 counterexample: a record whose `updateDate` is present but
unparseable, reconciled against an existing row, is classified as an
error by the bill reconciler — not updated, as the claim's
"no usable timestamp on either side defaults to update" rule
requires. -/
theorem C2_reconcile_counterexample :
    processBillBody ⟨100, none⟩
      [⟨0, "HR1", "T", none, none, some 117, "", none, "", none, "HR", none, some ⟨50, none⟩⟩]
      ⟨some "HR", some "1", some "T", none, none, some 117, none, none, some "not-a-date"⟩
    = ([⟨0, "HR1", "T", none, none, some 117, "", none, "", none, "HR", none, some ⟨50, none⟩⟩],
       .recError)
    ∧ RecOutcome.recError ≠ RecOutcome.recUpdated
    ∧ parseUpdateDate "not-a-date" = none := by
  refine ⟨rfl, by decide, rfl⟩

/-- C2 (amended): reconciliation classification of both `update_database`
variants.  Bill variant: with no existing row the record is inserted;
with an existing row it is updated when the incoming `updateDate` is
absent or empty, counted as an error when it is present but unparseable,
updated when the stored `last_updated` is NULL, and otherwise — both
timestamps reduced to offset-naive civil readings — skipped exactly when
stored ≥ incoming and updated otherwise.  Member variant: as the bill
variant except that an unparseable `updateDate` falls through to the
update (inner `except ValueError`), and the stored/incoming comparison
keeps the parsed offset, so a naive/aware mix raises `TypeError` and the
record is counted as an error; when the comparison is defined the record
is skipped exactly when it answers true. -/
theorem C2_reconcile_amended :
    (∀ (nowTs : PyDateTime) (db : List BillRow) (b : RawBill),
      (findBillRow db (billKey b) = none → (processBillBody nowTs db b).2 = .recInserted)
      ∧ (∀ row, findBillRow db (billKey b) = some row →
          (b.updateDate = none ∨ b.updateDate = some "" →
            (processBillBody nowTs db b).2 = .recUpdated)
          ∧ (∀ s, b.updateDate = some s → s ≠ "" →
              (parseUpdateDate s = none → (processBillBody nowTs db b).2 = .recError)
              ∧ (∀ t, parseUpdateDate s = some t →
                  (row.last_updated = none → (processBillBody nowTs db b).2 = .recUpdated)
                  ∧ (∀ d, row.last_updated = some d →
                      ((processBillBody nowTs db b).2 = .recSkipped ↔ t.civil ≤ d.civil)
                      ∧ (d.civil < t.civil →
                          (processBillBody nowTs db b).2 = .recUpdated))))))
    ∧ (∀ (cy : Int) (nowTs : PyDateTime) (db : List MemberRow) (m : RawMember)
        (k : String) (cm : Bool),
      m.bioguideId = some k → k ≠ "" →
      currentMemberFlag cy
        ((m.terms.getLast?.getD ⟨none, none, none, none, none⟩).endYear) = some cm →
      (findMemberRow db k = none → (processMember cy nowTs db m).2 = .recInserted)
      ∧ (∀ row, findMemberRow db k = some row →
          (m.updateDate = none ∨ m.updateDate = some "" →
            (processMember cy nowTs db m).2 = .recUpdated)
          ∧ (∀ s, m.updateDate = some s → s ≠ "" →
              (parseUpdateDate s = none → (processMember cy nowTs db m).2 = .recUpdated)
              ∧ (∀ t, parseUpdateDate s = some t →
                  (row.last_updated = none → (processMember cy nowTs db m).2 = .recUpdated)
                  ∧ (∀ d, row.last_updated = some d →
                      (pyDtGe d t = none → (processMember cy nowTs db m).2 = .recError)
                      ∧ (pyDtGe d t = some true →
                          (processMember cy nowTs db m).2 = .recSkipped)
                      ∧ (pyDtGe d t = some false →
                          (processMember cy nowTs db m).2 = .recUpdated)))))) := by
  constructor
  · intro nowTs db b
    constructor
    · intro hfind
      simp only [processBillBody, hfind]
      cases b.updateDate <;> simp
    · intro row hfind
      constructor
      · intro hud
        rcases hud with h | h <;> simp [processBillBody, hfind, h]
      · intro s hs hsne
        constructor
        · intro hparse
          simp [processBillBody, hfind, hs, hsne, hparse]
        · intro t hparse
          constructor
          · intro hlu
            simp [processBillBody, hfind, hs, hsne, hparse, hlu]
          · intro d hlu
            have hciv : (if d.offset.isSome then d.stripTz else d).civil = d.civil :=
              dbNaive_civil d
            have hstrip : (PyDateTime.stripTz t).civil = t.civil := rfl
            simp only [processBillBody, hfind, hs, hparse, hlu, if_neg hsne, hstrip, hciv]
            constructor
            · by_cases hle : t.civil ≤ d.civil <;> simp [hle]
            · intro hlt
              have hle : ¬ t.civil ≤ d.civil := by omega
              simp [hle]
  · intro cy nowTs db m k cm hbg hkne hcm
    constructor
    · intro hfind
      simp only [processMember, hbg, if_neg hkne, hcm, hfind]
      cases m.updateDate <;> simp
    · intro row hfind
      constructor
      · intro hud
        rcases hud with h | h <;> simp [processMember, hbg, hkne, hcm, hfind, h]
      · intro s hs hsne
        constructor
        · intro hparse
          simp [processMember, hbg, hkne, hcm, hfind, hs, hsne, hparse]
        · intro t hparse
          constructor
          · intro hlu
            simp [processMember, hbg, hkne, hcm, hfind, hs, hsne, hparse, hlu]
          · intro d hlu
            refine ⟨?_, ?_, ?_⟩ <;> intro hge <;>
              simp [processMember, hbg, hkne, hcm, hfind, hs, hsne, hparse, hlu, hge]

/-- C2 witness: the amended classification at concrete inputs — an
insert on a missing row, a skip on a fresh stored timestamp, and a
member-variant error on a naive/aware timestamp mix. -/
theorem C2_reconcile_witness :
    (processBillBody ⟨100, none⟩ []
      ⟨some "HR", some "1", none, none, none, none, none, none, none⟩).2 = .recInserted
    ∧ (processBillBody ⟨100, none⟩
        [⟨0, "HR1", "T", none, none, none, "", none, "", none, "HR", none,
          some ⟨2000000000000000, none⟩⟩]
        ⟨some "HR", some "1", none, none, none, none, none, none,
          some "2021-01-01T00:00:00Z"⟩).2 = .recSkipped
    ∧ (processMember 2025 ⟨100, none⟩
        [⟨0, "A1", "", "", "", none, none, "", none, none, true, some ⟨50, none⟩⟩]
        ⟨some "A1", none, none, none, none, none, [], none,
          some "2021-01-01T00:00:00Z"⟩).2 = .recError := by
  refine ⟨?_, ?_, ?_⟩
  · exact (C2_reconcile_amended.1 ⟨100, none⟩ []
      ⟨some "HR", some "1", none, none, none, none, none, none, none⟩).1 rfl
  · have h := (C2_reconcile_amended.1 ⟨100, none⟩
      [⟨0, "HR1", "T", none, none, none, "", none, "", none, "HR", none,
        some ⟨2000000000000000, none⟩⟩]
      ⟨some "HR", some "1", none, none, none, none, none, none,
        some "2021-01-01T00:00:00Z"⟩).2
      ⟨0, "HR1", "T", none, none, none, "", none, "", none, "HR", none,
        some ⟨2000000000000000, none⟩⟩ rfl
    have h2 := ((((h.2 "2021-01-01T00:00:00Z" rfl (by decide)).2
      ⟨1609459200000000, some 0⟩ (by rfl)).2 ⟨2000000000000000, none⟩ rfl)).1
    exact h2.mpr (by decide)
  · have h := (C2_reconcile_amended.2 2025 ⟨100, none⟩
      [⟨0, "A1", "", "", "", none, none, "", none, none, true, some ⟨50, none⟩⟩]
      ⟨some "A1", none, none, none, none, none, [], none, some "2021-01-01T00:00:00Z"⟩
      "A1" true rfl (by decide) rfl).2
      ⟨0, "A1", "", "", "", none, none, "", none, none, true, some ⟨50, none⟩⟩ rfl
    exact ((((h.2 "2021-01-01T00:00:00Z" rfl (by decide)).2
      ⟨1609459200000000, some 0⟩ (by rfl)).2 ⟨50, none⟩ rfl)).1 rfl

/-! ## Idempotent-replay machinery (C1)

Replay of a batch is idempotent exactly for records that carry a
parseable, truthy `updateDate` not later than the clock of the first
application (empty payloads are re-skipped anyway).  `rowGE db k tc`
says the table's row for key `k` stores a `last_updated` at least
`tc`. -/

/-- A batch record on which replay is idempotent: its extracted bill is
absent/empty (always skipped), or carries a truthy `updateDate` that
parses to a civil reading not later than `nowCivil`, the clock of the
first application. -/
def goodBillItem (nowCivil : Int) (item : BillItem) : Bool :=
  match get_bill_data item.bill with
  | none => true
  | some b =>
    b.isEmptyDict ||
      match b.updateDate with
      | none => false
      | some s =>
        (!(s == "")) &&
          match parseUpdateDate s with
          | none => false
          | some t => t.civil ≤ nowCivil

/-- The table has a row under key `k` whose stored `last_updated` civil
reading is at least `tc`. -/
def rowGE (db : List BillRow) (k : String) (tc : Int) : Prop :=
  ∃ row, findBillRow db k = some row
    ∧ ∃ d, row.last_updated = some d ∧ tc ≤ d.civil

/-- A record the second pass will skip: absent/empty payload, or a
truthy parseable `updateDate` whose reading the table already
dominates. -/
def itemSettled (db : List BillRow) (item : BillItem) : Prop :=
  match get_bill_data item.bill with
  | none => True
  | some b =>
    b.isEmptyDict = true ∨
      ∃ s t, b.updateDate = some s ∧ s ≠ "" ∧ parseUpdateDate s = some t
        ∧ rowGE db (billKey b) t.civil

/-- Lookup after an upsert: the upserted key now finds the new row,
every other key is unaffected. -/
theorem findBillRow_upsert (nr : BillRow) (k : String) :
    ∀ db : List BillRow,
      findBillRow (upsertBillRow nr db) k
        = if k = nr.bill_number then some nr else findBillRow db k := by
  intro db
  induction db with
  | nil =>
    by_cases hk : k = nr.bill_number
    · rw [if_pos hk, upsertBillRow, findBillRow]
      exact List.find?_cons_of_pos _ (by simp [hk])
    · rw [if_neg hk, upsertBillRow, findBillRow,
        List.find?_cons_of_neg _ (by simp only [beq_iff_eq]; exact fun hc => hk hc.symm)]
      rfl
  | cons row rest ih =>
    rw [upsertBillRow]
    by_cases hrow : (row.bill_number == nr.bill_number) = true
    · rw [if_pos hrow]
      have hrowEq : row.bill_number = nr.bill_number := by simpa using hrow
      by_cases hk : k = nr.bill_number
      · rw [if_pos hk, findBillRow]
        exact List.find?_cons_of_pos _ (by simp [hk])
      · rw [if_neg hk, findBillRow, findBillRow,
          List.find?_cons_of_neg _ (by simp only [beq_iff_eq]; exact fun hc => hk hc.symm),
          List.find?_cons_of_neg _
            (by simp only [beq_iff_eq, hrowEq]; exact fun hc => hk hc.symm)]
    · rw [if_neg hrow]
      have hrowNe : ¬ row.bill_number = nr.bill_number := by simpa using hrow
      by_cases hrk : (row.bill_number == k) = true
      · have hrkEq : row.bill_number = k := by simpa using hrk
        have hk : ¬ k = nr.bill_number := fun hc => hrowNe (hrkEq.trans hc)
        rw [if_neg hk, findBillRow, findBillRow,
          List.find?_cons_of_pos _ (by simp [hrkEq]),
          List.find?_cons_of_pos _ (by simp [hrkEq])]
      · have hrkNe : ¬ row.bill_number = k := by simpa using hrk
        rw [findBillRow, findBillRow,
          List.find?_cons_of_neg _ (by simpa using hrkNe),
          List.find?_cons_of_neg _ (by simpa using hrkNe)]
        exact ih

/-- An upsert that stamps `last_updated = nowTs` preserves `rowGE` for
every bound not above the stamp. -/
theorem rowGE_upsert {nowTs : PyDateTime} {tc : Int} (h : tc ≤ nowTs.civil)
    (nr : BillRow) (hnr : nr.last_updated = some nowTs) (db : List BillRow) (k : String)
    (hge : rowGE db k tc) : rowGE (upsertBillRow nr db) k tc := by
  by_cases hk : k = nr.bill_number
  · exact ⟨nr, by rw [findBillRow_upsert, if_pos hk], nowTs, hnr, h⟩
  · obtain ⟨row, hfind, d, hlu, hle⟩ := hge
    exact ⟨row, by rw [findBillRow_upsert, if_neg hk, hfind], d, hlu, hle⟩

/-- An upsert that stamps `last_updated = nowTs` establishes `rowGE` at
its own key for every bound not above the stamp. -/
theorem rowGE_upsert_self {nowTs : PyDateTime} {tc : Int} (h : tc ≤ nowTs.civil)
    (nr : BillRow) (hnr : nr.last_updated = some nowTs) (db : List BillRow) :
    rowGE (upsertBillRow nr db) nr.bill_number tc :=
  ⟨nr, by rw [findBillRow_upsert, if_pos rfl], nowTs, hnr, h⟩

/-- The loop body preserves `rowGE` at every key for bounds dominated by
the write clock. -/
theorem processBillBody_preserves (nowTs : PyDateTime) (db : List BillRow) (b : RawBill)
    (k : String) (tc : Int) (h : tc ≤ nowTs.civil) (hge : rowGE db k tc) :
    rowGE (processBillBody nowTs db b).1 k tc := by
  cases hfind : findBillRow db (billKey b) with
  | none =>
    cases hud : b.updateDate <;>
      · simp only [processBillBody, hfind, hud]
        exact rowGE_upsert h _ rfl db k hge
  | some row =>
    cases hud : b.updateDate with
    | none =>
      simp only [processBillBody, hfind, hud]
      exact rowGE_upsert h _ rfl db k hge
    | some s =>
      by_cases hse : s = ""
      · subst hse
        simp only [processBillBody, hfind, hud, if_pos rfl]
        exact rowGE_upsert h _ rfl db k hge
      · cases hp : parseUpdateDate s with
        | none =>
          simp only [processBillBody, hfind, hud, if_neg hse, hp]
          exact hge
        | some t =>
          cases hlu : row.last_updated with
          | none =>
            simp only [processBillBody, hfind, hud, if_neg hse, hp, hlu]
            exact rowGE_upsert h _ rfl db k hge
          | some d =>
            simp only [processBillBody, hfind, hud, if_neg hse, hp, hlu]
            by_cases hle : t.stripTz.civil ≤ (if d.offset.isSome then d.stripTz else d).civil
            · rw [if_pos hle]
              exact hge
            · rw [if_neg hle]
              exact rowGE_upsert h _ rfl db k hge

/-- One loop iteration preserves `rowGE`. -/
theorem processBill_preserves (nowTs : PyDateTime) (db : List BillRow) (item : BillItem)
    (k : String) (tc : Int) (h : tc ≤ nowTs.civil) (hge : rowGE db k tc) :
    rowGE (processBill nowTs db item).1 k tc := by
  rw [processBill]
  cases hx : get_bill_data item.bill with
  | none => exact hge
  | some b =>
    by_cases he : b.isEmptyDict = true
    · simp only [he, if_pos rfl]
      exact hge
    · simp only [he, if_neg he, Bool.false_eq_true]
      exact processBillBody_preserves nowTs db b k tc h hge

/-- A record with an existing row, a truthy parseable `updateDate`, and
a write clock at least that reading leaves the table with `rowGE` at its
key. -/
theorem processBillBody_establishes (nowTs : PyDateTime) (db : List BillRow) (b : RawBill)
    (s : String) (t : PyDateTime) (hs : b.updateDate = some s) (hsne : s ≠ "")
    (hp : parseUpdateDate s = some t) (hnow : t.civil ≤ nowTs.civil) :
    rowGE (processBillBody nowTs db b).1 (billKey b) t.civil := by
  cases hfind : findBillRow db (billKey b) with
  | none =>
    simp only [processBillBody, hfind, hs]
    exact rowGE_upsert_self hnow _ rfl db
  | some row =>
    cases hlu : row.last_updated with
    | none =>
      simp only [processBillBody, hfind, hs, if_neg hsne, hp, hlu]
      exact rowGE_upsert_self hnow _ rfl db
    | some d =>
      simp only [processBillBody, hfind, hs, if_neg hsne, hp, hlu]
      by_cases hle : t.stripTz.civil ≤ (if d.offset.isSome then d.stripTz else d).civil
      · rw [if_pos hle]
        refine ⟨row, hfind, d, hlu, ?_⟩
        have h2 := hle
        rw [dbNaive_civil] at h2
        exact h2
      · rw [if_neg hle]
        exact rowGE_upsert_self hnow _ rfl db

/-- The Boolean `goodBillItem` test, unpacked. -/
theorem goodBillItem_spec (nowCivil : Int) (item : BillItem)
    (h : goodBillItem nowCivil item = true) :
    match get_bill_data item.bill with
    | none => True
    | some b =>
      b.isEmptyDict = true ∨
        ∃ s t, b.updateDate = some s ∧ s ≠ "" ∧ parseUpdateDate s = some t
          ∧ t.civil ≤ nowCivil := by
  rw [goodBillItem] at h
  cases hx : get_bill_data item.bill with
  | none => trivial
  | some b =>
    rw [hx] at h
    simp only
    by_cases he : b.isEmptyDict = true
    · exact Or.inl he
    · right
      rw [Bool.or_eq_true] at h
      rcases h with h | h
      · exact absurd h he
      · cases hud : b.updateDate with
        | none => rw [hud] at h; exact absurd h (by simp)
        | some s =>
          rw [hud] at h
          rw [Bool.and_eq_true] at h
          obtain ⟨hsne, h2⟩ := h
          cases hp : parseUpdateDate s with
          | none => rw [hp] at h2; exact absurd h2 (by simp)
          | some t =>
            rw [hp] at h2
            exact ⟨s, t, rfl, by simpa using hsne, hp, by simpa using h2⟩

/-- A settled record is skipped by the loop without touching the
table. -/
theorem processBill_skip_settled (nowTs2 : PyDateTime) (db : List BillRow) (item : BillItem)
    (h : itemSettled db item) :
    processBill nowTs2 db item = (db, .recSkipped, billHistFlag item) := by
  rw [processBill, billHistFlag]
  cases hx : get_bill_data item.bill with
  | none => rfl
  | some b =>
    rw [itemSettled, hx] at h
    by_cases he : b.isEmptyDict = true
    · simp [he]
    · rcases h with h | ⟨s, t, hs, hsne, hp, row, hfind, d, hlu, hle⟩
      · exact absurd h he
      · simp only [he, if_neg he, Bool.false_eq_true, Prod.mk.injEq]
        have hbody : processBillBody nowTs2 db b = (db, .recSkipped) := by
          simp only [processBillBody, hfind, hs, if_neg hsne, hp, hlu]
          rw [if_pos (by rw [dbNaive_civil]; exact hle)]
        rw [hbody]
        simp [he]

/-- The bound `rowGE` survives the whole first pass. -/
theorem bill_fold_preserves (nowTs : PyDateTime) (k : String) (tc : Int)
    (h : tc ≤ nowTs.civil) :
    ∀ (batch : List BillItem) (db : List BillRow) (s0 : BillStats), rowGE db k tc →
      rowGE ((batch.foldl (billStep nowTs) (db, s0)).1) k tc := by
  intro batch
  induction batch with
  | nil => intro db s0 hge; exact hge
  | cons item rest ih =>
    intro db s0 hge
    rw [List.foldl_cons, billStep_eq]
    exact ih _ _ (processBill_preserves nowTs db item k tc h hge)

/-- After the first pass over a batch of good records, every record of
the batch is settled against the resulting table. -/
theorem bill_fold_establishes (nowTs : PyDateTime) :
    ∀ (batch : List BillItem) (db : List BillRow) (s0 : BillStats),
      (∀ item ∈ batch, goodBillItem nowTs.civil item = true) →
      ∀ item ∈ batch, itemSettled ((batch.foldl (billStep nowTs) (db, s0)).1) item := by
  intro batch
  induction batch with
  | nil => intro db s0 _ item hmem; exact absurd hmem (List.not_mem_nil item)
  | cons i0 rest ih =>
    intro db s0 hgood item hmem
    rw [List.foldl_cons, billStep_eq]
    rcases List.mem_cons.mp hmem with rfl | hmem'
    · have hg := goodBillItem_spec nowTs.civil item (hgood item (List.mem_cons_self item rest))
      rw [itemSettled]
      cases hx : get_bill_data item.bill with
      | none => trivial
      | some b =>
        rw [hx] at hg
        rcases hg with he | ⟨s, t, hs, hsne, hp, hnow⟩
        · exact Or.inl he
        · right
          refine ⟨s, t, hs, hsne, hp, ?_⟩
          by_cases he : b.isEmptyDict = true
          · refine absurd ?_ hsne
            have : b.updateDate = none := by
              rcases b with ⟨f1, f2, f3, f4, f5, f6, f7, f8, f9⟩
              simp only [RawBill.isEmptyDict, Bool.and_eq_true, Option.isNone_iff_eq_none]
                at he
              exact he.2
            rw [this] at hs
            exact absurd hs (by simp)
          · have hest : rowGE (processBill nowTs db item).1 (billKey b) t.civil := by
              rw [processBill, hx]
              simp only [he, if_neg he, Bool.false_eq_true]
              exact processBillBody_establishes nowTs db b s t hs hsne hp hnow
            exact bill_fold_preserves nowTs (billKey b) t.civil hnow rest _ _ hest
    · exact ih _ _ (fun x hx => hgood x (List.mem_cons_of_mem i0 hx)) item hmem'

/-- A pass over settled records changes nothing and skips every
record. -/
theorem bill_fold_skips (nowTs2 : PyDateTime) :
    ∀ (batch : List BillItem) (db : List BillRow) (s0 : BillStats),
      (∀ item ∈ batch, itemSettled db item) →
      batch.foldl (billStep nowTs2) (db, s0)
        = (db, { inserted := s0.inserted, updated := s0.updated,
                 skipped := s0.skipped + batch.length, error := s0.error,
                 historical := s0.historical + batch.countP billHistFlag }) := by
  intro batch
  induction batch with
  | nil =>
    intro db s0 _
    simp only [List.foldl_nil, List.length_nil, List.countP_nil, Nat.add_zero]
  | cons i0 rest ih =>
    intro db s0 h
    rw [List.foldl_cons, billStep_eq,
      processBill_skip_settled nowTs2 db i0 (h i0 (List.mem_cons_self i0 rest))]
    rw [ih db _ (fun x hx => h x (List.mem_cons_of_mem i0 hx))]
    simp only [BillStats.bump, List.length_cons, List.countP_cons, reduceIte]
    rw [Prod.mk.injEq]
    refine ⟨rfl, ?_⟩
    rw [BillStats.mk.injEq]
    exact ⟨by simp, by simp, by omega, by simp, by omega⟩

/-- C1 counterexample: a batch whose single record lacks an `updateDate`
replays as an update, not a skip — the first application inserts it and
the second updates it again. -/
theorem C1_idempotent_replay_counterexample :
    (bill_update_database ⟨100, none⟩ []
      [⟨.obj ⟨some "HR", some "1", some "T", none, none, some 117, none, none, none⟩⟩]).2
      = ⟨1, 0, 0, 0, 0⟩
    ∧ (bill_update_database ⟨100, none⟩
        (bill_update_database ⟨100, none⟩ []
          [⟨.obj ⟨some "HR", some "1", some "T", none, none, some 117, none, none, none⟩⟩]).1
        [⟨.obj ⟨some "HR", some "1", some "T", none, none, some 117, none, none, none⟩⟩]).2
      = ⟨0, 1, 0, 0, 0⟩
    ∧ (1 : Nat) ≠ 0 := by
  refine ⟨rfl, rfl, by decide⟩

/-- C1 (amended): replaying a batch is idempotent provided every record
either extracts to an absent/empty payload or carries a truthy
`updateDate` that parses to a civil reading not later than the first
pass's write clock: the second application performs zero inserts, zero
updates and zero errors, classifies every record as skipped, and leaves
the table unchanged.  (A record without a usable `updateDate` is
re-written by design, so the unconditional claim fails.) -/
theorem C1_idempotent_replay_amended (nowTs nowTs2 : PyDateTime) (db : List BillRow)
    (batch : List BillItem)
    (h : ∀ item ∈ batch, goodBillItem nowTs.civil item = true) :
    (bill_update_database nowTs2 (bill_update_database nowTs db batch).1 batch).2.inserted = 0
    ∧ (bill_update_database nowTs2 (bill_update_database nowTs db batch).1 batch).2.updated = 0
    ∧ (bill_update_database nowTs2 (bill_update_database nowTs db batch).1 batch).2.error = 0
    ∧ (bill_update_database nowTs2 (bill_update_database nowTs db batch).1 batch).2.skipped
        = batch.length
    ∧ (bill_update_database nowTs2 (bill_update_database nowTs db batch).1 batch).1
        = (bill_update_database nowTs db batch).1 := by
  have hsettled : ∀ item ∈ batch, itemSettled (bill_update_database nowTs db batch).1 item :=
    bill_fold_establishes nowTs batch db BillStats.init h
  have hrun := bill_fold_skips nowTs2 batch (bill_update_database nowTs db batch).1
    BillStats.init hsettled
  rw [show bill_update_database nowTs2 (bill_update_database nowTs db batch).1 batch
      = batch.foldl (billStep nowTs2) ((bill_update_database nowTs db batch).1, BillStats.init)
    from rfl, hrun]
  exact ⟨rfl, rfl, rfl, by simp [BillStats.init], rfl⟩

/-- C1 witness: the amended idempotency at a one-record batch carrying a
parseable `updateDate` older than the write clock. -/
theorem C1_idempotent_replay_witness :
    (∀ item ∈ ([⟨.obj ⟨some "HR", some "1", some "T", none, none, some 117, none, none,
        some "2021-01-01T00:00:00Z"⟩⟩] : List BillItem),
      goodBillItem (PyDateTime.mk 2000000000000000 none).civil item = true)
    ∧ (bill_update_database ⟨0, none⟩
        (bill_update_database ⟨2000000000000000, none⟩ []
          [⟨.obj ⟨some "HR", some "1", some "T", none, none, some 117, none, none,
            some "2021-01-01T00:00:00Z"⟩⟩]).1
        [⟨.obj ⟨some "HR", some "1", some "T", none, none, some 117, none, none,
          some "2021-01-01T00:00:00Z"⟩⟩]).2.skipped = 1 := by
  have hgood : ∀ item ∈ ([⟨.obj ⟨some "HR", some "1", some "T", none, none, some 117, none,
      none, some "2021-01-01T00:00:00Z"⟩⟩] : List BillItem),
      goodBillItem (PyDateTime.mk 2000000000000000 none).civil item = true := by decide
  have h := C1_idempotent_replay_amended ⟨2000000000000000, none⟩ ⟨0, none⟩ []
    [⟨.obj ⟨some "HR", some "1", some "T", none, none, some 117, none, none,
      some "2021-01-01T00:00:00Z"⟩⟩] hgood
  exact ⟨hgood, h.2.2.2.1⟩

end Congress
